import Mathlib

/-!
Shallow embedding of `src/playbook/vars_plugins/hashivault_vars.py`
(the `hashivault_vars` Ansible vars plugin).

Python dictionaries (`entity.vars`, the accumulator `data`, the records
returned by Vault, the `vault_cache`) are modelled as association lists
with unique-key lookup/assignment. The Vault client (`self.v_client.read`)
and the IPv6 test (`socket.inet_pton(AF_INET6, ...)`) are external
collaborators and appear as explicit function parameters; the run-wide
mutable state (`vault_cache`, plus an instrumentation trace of the
`_read_vault` calls and a count of the underlying store reads) is threaded
through as an explicit state record.
-/

namespace HashivaultVars

/-- A Python value stored in a variables mapping: here only the integers
and strings the plugin manipulates (`22`, `5985`, `"ssh"`, ...). -/
inductive Value where
  | int (n : Int)
  | str (s : String)
deriving DecidableEq

/-- `str(v)` as used by Python `%s` formatting. -/
def Value.pyStr : Value → String
  | .int n => toString n
  | .str s => s

/-- A Python dict of ansible variables, as an association list. -/
abbrev Vars := List (String × Value)

/-- `d.get(k)` on a Python dict (first matching key; dicts built by
assignment have unique keys). -/
def getA {α : Type} (l : List (String × α)) (k : String) : Option α :=
  match l with
  | [] => none
  | (k', v) :: rest => if k' = k then some v else getA rest k

/-- `d[k] = v` on a Python dict: replace in place if the key is present,
otherwise append (insertion order preserved). -/
def setA {α : Type} (l : List (String × α)) (k : String) (v : α) : List (String × α) :=
  match l with
  | [] => [(k, v)]
  | (k', v') :: rest => if k' = k then (k, v) :: rest else (k', v') :: setA rest k v

/-- `ansible.utils.vars.combine_vars` under the default
`hash_behaviour=replace`: a shallow dict update, `result = dict(a);
result.update(b)` — every key of `b` overwrites, keys absent from `b`
are kept from `a`. -/
def combine_vars (a b : Vars) : Vars :=
  b.foldl (fun acc kv => setA acc kv.1 kv.2) a

/-- Model of Python `str.split('.')` on the character list: `"a.b"` ↦
`["a","b"]`, `"a..b"` ↦ `["a","","b"]`, `""` ↦ `[""]` (never empty). -/
def splitDotCL : List Char → List (List Char)
  | [] => [[]]
  | c :: rest =>
    if c = '.' then [] :: splitDotCL rest
    else
      match splitDotCL rest with
      | [] => [[c]]
      | p :: ps => (c :: p) :: ps

/-- Model of Python `entity.name.split('.')`. -/
def pySplitDot (s : String) : List String :=
  (splitDotCL s.data).map String.mk

/-- Join a list of character lists with `'.'` (inverse of `splitDotCL`). -/
def joinDotCL : List (List Char) → List Char
  | [] => []
  | [p] => p
  | p :: q :: rest => p ++ '.' :: joinDotCL (q :: rest)

/-- Join a list of strings with `"."`. -/
def dotJoin : List String → String
  | [] => ""
  | [p] => p
  | p :: q :: rest => p ++ "." ++ dotJoin (q :: rest)

/-! ## The plugin's data model -/

/-- An entity handed to the plugin by Ansible: an inventory `Group`, a
`Host` (with its pre-existing variables), or any other object (the
plugin classifies by `isinstance`; `other` carries the Python type name
for the error message). -/
inductive Entity where
  | group (name : String)
  | host (name : String) (vars : Vars)
  | other (tyName : String)
deriving DecidableEq

/-- An `AnsibleInternalError` raised by the plugin. Both constructors are
the same exception class; they keep the data interpolated into the
source's message. -/
inductive Err where
  | failedHostParts (len : Nat)
  | unrecognisedEntity (tyName : String)
deriving DecidableEq

/-- The vault cache: `vault_cache`, keyed by `folder/name`. -/
abbrev Cache := List (String × Vars)

/-- Run-wide mutable state: the `vault_cache`, plus instrumentation — the
ordered trace of `_read_vault` calls `(folder, entity_name)` (the lookup
keys produced) and the number of underlying `v_client.read` calls. -/
structure St where
  cache : Cache
  reads : List (String × String)
  storeReads : Nat
deriving DecidableEq

/-- Numeric value of a decimal digit string (used by the IPv4 model). -/
def digitsVal (cs : List Char) : Nat :=
  cs.foldl (fun a c => a * 10 + (c.toNat - 48)) 0

/-- `_is_valid_ipv4_address`: model of
`socket.inet_pton(socket.AF_INET, address)` — a strict dotted quad:
exactly four fields, each one to three decimal digits with no leading
zero, each value at most 255. -/
def _is_valid_ipv4_address (s : String) : Bool :=
  let fields := splitDotCL s.data
  fields.length == 4 && fields.all fun f =>
    f.length ≥ 1 && f.length ≤ 3 && f.all Char.isDigit &&
    (f.length == 1 || f.head? != some '0') && digitsVal f ≤ 255

/-- `_is_valid_ip_address`: true on a valid IPv4 address, else defer to
the IPv6 test. `ipv6` is the external `socket.inet_pton(AF_INET6, ...)`
collaborator, passed in as a parameter. -/
def _is_valid_ip_address (ipv6 : String → Bool) (s : String) : Bool :=
  if _is_valid_ipv4_address s then true else ipv6 s

/-- `_read_vault(folder, entity_name)` against cache state `cache` and a
vault client `store` (`store path = none` models a falsy
`v_client.read` response, i.e. the path has no data; `some d` models a
response whose `"data"` field is `d`). Returns the record, the updated
cache, and the number of underlying store reads performed (0 or 1). -/
def _read_vault (store : String → Option Vars) (cache : Cache)
    (folder entity_name : String) : Vars × Cache × Nat :=
  let key := folder ++ "/" ++ entity_name
  match getA cache key with
  | some cached_value => (cached_value, cache, 0)
  | none =>
    let data : Vars :=
      match store ("secret/ansible/" ++ key) with
      | some result => result
      | none => []
    (data, setA cache key data, 1)

/-- `_read_vault` lifted to the run state: also records the call in the
lookup trace. -/
def readVaultSt (store : String → Option Vars) (st : St)
    (folder entity_name : String) : Vars × St :=
  let r := _read_vault store st.cache folder entity_name
  (r.1, ⟨r.2.1, st.reads ++ [(folder, entity_name)], st.storeReads + r.2.2⟩)

/-- Lines 148–161 of `_get_vars`: resolve the default connection details
of a host into the accumulator `data`, reading only `entity.vars`
(`hvars`). -/
def resolveDefaults (hvars data : Vars) : Vars :=
  let data1 :=
    match getA hvars "ansible_port" with
    | none =>
      match getA hvars "ansible_connection" with
      | none => setA data "ansible_port" (.int 22)
      | some _ => data
    | some p => setA data "ansible_port" p
  match getA hvars "ansible_connection" with
  | none =>
    if getA data1 "ansible_port" = some (.int 5985) ∨
        getA data1 "ansible_port" = some (.int 5986) then
      setA data1 "ansible_connection" (.str "winrm")
    else
      setA data1 "ansible_connection" (.str "ssh")
  | some c => setA data1 "ansible_connection" c

/-- `data["ansible_connection"]` rendered by `"%s" %` (the lookup cannot
fail after `resolveDefaults`; the `""` default is unreachable). -/
def pyStrOpt : Option Value → String
  | some v => v.pyStr
  | none => ""

/-- The `for part in parts` loop of `_get_vars` (lines 173–184): walk the
reversed name parts, accumulate the suffix, and read and overlay each
layer. When the suffix equals the full host name the folder is
recomputed as `"%s/hosts" % data["ansible_connection"]` from the
accumulator as it stands at that iteration (source line 178) — that is,
after the earlier domain-layer merges, which may have overridden
`ansible_connection`. -/
def domainLoop (store : String → Option Vars) (name : String) :
    List String → String → String → Vars → St → Vars × St
  | [], _folder, _prev, data, st => (data, st)
  | part :: rest, folder, prev, data, st =>
    let lookup_part := part ++ prev
    let folder1 := if lookup_part = name
      then pyStrOpt (getA data "ansible_connection") ++ "/hosts"
      else folder
    let r := readVaultSt store st folder1 lookup_part
    domainLoop store name rest folder1 ("." ++ part ++ prev)
      (combine_vars data r.1) r.2

/-- `_get_vars(data, entity)`. The result carries the accumulated vars,
the entity as it stands after the call (Python passes it by reference;
the source never assigns into it), and the updated run state; a raised
`AnsibleInternalError` is an `Except.error`. -/
def _get_vars (ipv6 : String → Bool) (store : String → Option Vars)
    (st : St) (data : Vars) (entity : Entity) :
    Except Err (Vars × Entity × St) :=
  match entity with
  | .group name =>
    let r := readVaultSt store st "groups" name
    .ok (combine_vars data r.1, entity, r.2)
  | .host name hvars =>
    let data1 := resolveDefaults hvars data
    let conn := pyStrOpt (getA data1 "ansible_connection")
    let folder := conn ++ "/hosts"
    if _is_valid_ip_address ipv6 name then
      let r := readVaultSt store st folder name
      .ok (combine_vars data1 r.1, entity, r.2)
    else
      let parts := pySplitDot name
      if parts.length = 1 then
        let r := readVaultSt store st folder name
        .ok (combine_vars data1 r.1, entity, r.2)
      else if 1 < parts.length then
        let r := domainLoop store name parts.reverse (conn ++ "/domains") "" data1 st
        .ok (r.1, entity, r.2)
      else
        .error (.failedHostParts parts.length)
  | .other tyName => .error (.unrecognisedEntity tyName)

/-- The `for entity in entities` loop of `get_vars`: fold `_get_vars`
over the batch, starting from `data = {}` at the caller; any raised
error aborts the whole fold. -/
def runEntities (ipv6 : String → Bool) (store : String → Option Vars) :
    List Entity → Vars → St → Except Err (Vars × St)
  | [], data, st => .ok (data, st)
  | e :: rest, data, st =>
    match _get_vars ipv6 store st data e with
    | .error err => .error err
    | .ok r => runEntities ipv6 store rest r.1 r.2.2

/-- The `entities` argument of `get_vars`: Ansible may pass a single
entity or a list of entities. -/
inductive EntitiesArg where
  | single (e : Entity)
  | list (es : List Entity)
deriving DecidableEq

/-- `get_vars(loader, path, entities)`: wrap a non-list argument into a
one-element list, then fold `_get_vars` over the entities starting from
an empty accumulator. (`loader` and `path` only feed the superclass
call and play no part in the resolution.) -/
def get_vars (ipv6 : String → Bool) (store : String → Option Vars)
    (st : St) (arg : EntitiesArg) : Except Err (Vars × St) :=
  let entities :=
    match arg with
    | .single e => [e]
    | .list es => es
  runEntities ipv6 store entities [] st

/-- No record this store can return carries an `ansible_connection`
key, so no vault layer overrides the connection type resolved from the
entity's vars. -/
def storeNoConnOverride (store : String → Option Vars) : Prop :=
  ∀ p r, store p = some r → getA r "ansible_connection" = none

/-- No cached record carries an `ansible_connection` key. -/
def cacheNoConnOverride (cache : Cache) : Prop :=
  ∀ k r, getA cache k = some r → getA r "ansible_connection" = none

/-- The accumulated domain suffixes visited by the `_get_vars` loop:
given the reversed name labels and the accumulator `prev`, the suffix
strings from widest to narrowest (`["com", "example.com",
"hosta.example.com"]` for `hosta.example.com`). -/
def accGo : List String → String → List String
  | [], _ => []
  | p :: rest, prev => (p ++ prev) :: accGo rest ("." ++ p ++ prev)


/-! ## Helper lemmas -/

theorem splitDotCL_ne_nil (cs : List Char) : splitDotCL cs ≠ [] := by
  induction cs with
  | nil => simp [splitDotCL]
  | cons c rest ih =>
    simp only [splitDotCL]
    split
    · simp
    · cases h : splitDotCL rest with
      | nil => simp
      | cons p ps => simp

theorem joinDotCL_splitDotCL (cs : List Char) : joinDotCL (splitDotCL cs) = cs := by
  induction cs with
  | nil => simp [splitDotCL, joinDotCL]
  | cons c rest ih =>
    simp only [splitDotCL]
    split
    · rename_i hdot
      subst hdot
      cases h : splitDotCL rest with
      | nil => exact absurd h (splitDotCL_ne_nil rest)
      | cons p ps =>
        rw [h] at ih
        simp [joinDotCL, ih]
    · cases h : splitDotCL rest with
      | nil => exact absurd h (splitDotCL_ne_nil rest)
      | cons p ps =>
        rw [h] at ih
        cases ps with
        | nil => simp_all [joinDotCL]
        | cons q qs => simp_all [joinDotCL]

theorem pySplitDot_ne_nil (s : String) : pySplitDot s ≠ [] := by
  simp [pySplitDot, splitDotCL_ne_nil]

theorem mk_append (a b : List Char) : String.mk a ++ String.mk b = String.mk (a ++ b) := rfl

theorem dotJoin_map_mk (l : List (List Char)) :
    dotJoin (l.map String.mk) = String.mk (joinDotCL l) := by
  induction l with
  | nil => rfl
  | cons p rest ih =>
    cases rest with
    | nil => rfl
    | cons q qs =>
      simp only [List.map, dotJoin, joinDotCL] at *
      rw [ih]
      apply String.ext
      simp [String.data_append]

/-- Splitting on `'.'` and joining back with `"."` is the identity. -/
theorem dotJoin_pySplitDot (s : String) : dotJoin (pySplitDot s) = s := by
  rw [pySplitDot, dotJoin_map_mk, joinDotCL_splitDotCL]

theorem getA_setA_self {α : Type} (l : List (String × α)) (k : String) (v : α) :
    getA (setA l k v) k = some v := by
  induction l with
  | nil => simp [getA, setA]
  | cons kv rest ih =>
    obtain ⟨k', v'⟩ := kv
    simp only [setA]
    split
    · simp [getA]
    · rename_i hne
      simp [getA, hne, ih]

theorem getA_setA_ne {α : Type} (l : List (String × α)) (k k' : String) (v : α)
    (h : k' ≠ k) : getA (setA l k v) k' = getA l k' := by
  induction l with
  | nil => simp [getA, setA, Ne.symm h]
  | cons kv rest ih =>
    obtain ⟨k0, v0⟩ := kv
    simp only [setA]
    split
    · rename_i heq
      subst heq
      simp [getA, Ne.symm h]
    · simp only [getA]
      split
      · rfl
      · exact ih

theorem combine_vars_nil (a : Vars) : combine_vars a [] = a := rfl

theorem combine_vars_cons (a : Vars) (k : String) (v : Value) (rest : Vars) :
    combine_vars a ((k, v) :: rest) = combine_vars (setA a k v) rest := rfl

theorem getA_combine_of_not_mem (a b : Vars) (k : String)
    (h : k ∉ b.map Prod.fst) : getA (combine_vars a b) k = getA a k := by
  induction b generalizing a with
  | nil => rfl
  | cons kv rest ih =>
    obtain ⟨k', v'⟩ := kv
    simp only [List.map, List.mem_cons, not_or] at h
    rw [combine_vars_cons, ih _ h.2, getA_setA_ne _ _ _ _ h.1]


theorem str_assoc (a b c : String) : a ++ b ++ c = a ++ (b ++ c) := by
  apply String.ext
  simp [String.data_append]

theorem str_append_empty (a : String) : a ++ "" = a := by
  apply String.ext
  simp [String.data_append]

theorem mem_of_getLast? {α : Type} {l : List α} {a : α}
    (h : l.getLast? = some a) : a ∈ l := by
  induction l with
  | nil => simp at h
  | cons x xs ih =>
    cases xs with
    | nil => simp_all [List.getLast?]
    | cons y ys =>
      rw [List.getLast?_cons_cons] at h
      exact List.mem_cons_of_mem _ (ih h)

theorem dotJoin_append_singleton (xs : List String) (y : String) (h : xs ≠ []) :
    dotJoin (xs ++ [y]) = dotJoin xs ++ "." ++ y := by
  induction xs with
  | nil => exact absurd rfl h
  | cons p rest ih =>
    cases rest with
    | nil => rfl
    | cons q qs =>
      have h2 := ih (List.cons_ne_nil q qs)
      show p ++ "." ++ dotJoin ((q :: qs) ++ [y]) = (p ++ "." ++ dotJoin (q :: qs)) ++ "." ++ y
      rw [h2]
      apply String.ext
      simp [String.data_append]

theorem accGo_getLast (l : List String) (prev : String) (h : l ≠ []) :
    (accGo l prev).getLast? = some (dotJoin l.reverse ++ prev) := by
  induction l generalizing prev with
  | nil => exact absurd rfl h
  | cons p rest ih =>
    cases rest with
    | nil =>
      show ((p ++ prev) :: accGo [] ("." ++ p ++ prev)).getLast? = _
      simp [accGo, dotJoin]
    | cons q qs =>
      show ((p ++ prev) :: accGo (q :: qs) ("." ++ p ++ prev)).getLast? = _
      rw [show ((p ++ prev) :: accGo (q :: qs) ("." ++ p ++ prev)) =
        (p ++ prev) :: (q ++ ("." ++ p ++ prev)) ::
          accGo qs ("." ++ q ++ ("." ++ p ++ prev)) from rfl]
      rw [List.getLast?_cons_cons]
      rw [show (q ++ ("." ++ p ++ prev)) :: accGo qs ("." ++ q ++ ("." ++ p ++ prev)) =
        accGo (q :: qs) ("." ++ p ++ prev) from rfl]
      rw [ih ("." ++ p ++ prev) (List.cons_ne_nil q qs)]
      congr 1
      have hs : (p :: q :: qs).reverse = (q :: qs).reverse ++ [p] := by simp
      rw [hs, dotJoin_append_singleton ((q :: qs).reverse) p (by simp)]
      apply String.ext
      simp [String.data_append]

theorem length_le_of_mem_accGo (l : List String) (prev : String) (y : String)
    (hy : y ∈ accGo l prev) : prev.length ≤ y.length := by
  induction l generalizing prev with
  | nil => simp [accGo] at hy
  | cons p rest ih =>
    simp only [accGo, List.mem_cons] at hy
    rcases hy with h | h
    · subst h
      rw [String.length_append]
      omega
    · have h2 := ih ("." ++ p ++ prev) h
      rw [String.length_append, String.length_append] at h2
      omega

theorem length_lt_of_mem_dropLast_accGo (l : List String) (prev : String)
    (x last : String) (hx : x ∈ (accGo l prev).dropLast)
    (hlast : (accGo l prev).getLast? = some last) : x.length < last.length := by
  induction l generalizing prev with
  | nil => simp [accGo] at hx
  | cons p rest ih =>
    cases rest with
    | nil => simp [accGo] at hx
    | cons q qs =>
      simp only [accGo] at hx hlast
      rw [List.dropLast_cons₂, List.mem_cons] at hx
      rw [List.getLast?_cons_cons] at hlast
      rcases hx with h | h
      · subst h
        have hmem : last ∈ accGo (q :: qs) ("." ++ p ++ prev) := mem_of_getLast? hlast
        have h3 := length_le_of_mem_accGo _ _ _ hmem
        rw [String.length_append, String.length_append] at h3
        rw [String.length_append]
        have hdot : (".").length = 1 := rfl
        omega
      · exact ih ("." ++ p ++ prev) h hlast

theorem readVaultSt_reads (store : String → Option Vars) (st : St)
    (folder entity_name : String) :
    (readVaultSt store st folder entity_name).2.reads = st.reads ++ [(folder, entity_name)] := rfl

theorem domainLoop_cons (store : String → Option Vars) (name part : String)
    (rest : List String) (folder prev : String) (data : Vars) (st : St) :
    domainLoop store name (part :: rest) folder prev data st =
      domainLoop store name rest
        (if part ++ prev = name
          then pyStrOpt (getA data "ansible_connection") ++ "/hosts" else folder)
        ("." ++ part ++ prev)
        (combine_vars data
          (readVaultSt store st
            (if part ++ prev = name
              then pyStrOpt (getA data "ansible_connection") ++ "/hosts" else folder)
            (part ++ prev)).1)
        (readVaultSt store st
          (if part ++ prev = name
            then pyStrOpt (getA data "ansible_connection") ++ "/hosts" else folder)
          (part ++ prev)).2 := rfl

theorem getA_setA_elim {α : Type} (l : List (String × α)) (k k' : String)
    (v r : α) (h : getA (setA l k v) k' = some r) : r = v ∨ getA l k' = some r := by
  induction l with
  | nil =>
    simp only [setA, getA] at h
    split at h
    · exact Or.inl (Option.some.inj h).symm
    · cases h
  | cons kv rest ih =>
    obtain ⟨k0, v0⟩ := kv
    simp only [setA] at h
    split at h
    · rename_i hk0
      simp only [getA] at h ⊢
      by_cases hkk : k = k'
      · rw [if_pos hkk] at h
        exact Or.inl (Option.some.inj h).symm
      · rw [if_neg hkk] at h
        rw [if_neg (by rw [hk0]; exact hkk)]
        exact Or.inr h
    · simp only [getA] at h ⊢
      by_cases hk0' : k0 = k'
      · rw [if_pos hk0'] at h ⊢
        exact Or.inr h
      · rw [if_neg hk0'] at h ⊢
        exact ih h

theorem not_mem_keys_of_getA_none {α : Type} (l : List (String × α)) (k : String)
    (h : getA l k = none) : k ∉ l.map Prod.fst := by
  induction l with
  | nil => simp
  | cons kv rest ih =>
    obtain ⟨k', v'⟩ := kv
    simp only [getA] at h
    by_cases hk : k' = k
    · rw [if_pos hk] at h
      cases h
    · rw [if_neg hk] at h
      simp only [List.map_cons, List.mem_cons, not_or]
      exact ⟨fun heq => hk heq.symm, ih h⟩

theorem getA_combine_of_none (a b : Vars) (k : String) (h : getA b k = none) :
    getA (combine_vars a b) k = getA a k :=
  getA_combine_of_not_mem a b k (not_mem_keys_of_getA_none b k h)

/-- If neither the store nor the current cache can produce a record with
an `ansible_connection` key, `_read_vault` returns such a record and
keeps the cache that way. -/
theorem _read_vault_no_override (store : String → Option Vars) (cache : Cache)
    (folder entity_name : String)
    (hs : storeNoConnOverride store) (hc : cacheNoConnOverride cache) :
    getA (_read_vault store cache folder entity_name).1 "ansible_connection" = none ∧
    cacheNoConnOverride (_read_vault store cache folder entity_name).2.1 := by
  cases hget : getA cache (folder ++ "/" ++ entity_name) with
  | some v =>
    simp only [_read_vault, hget]
    exact ⟨hc _ _ hget, hc⟩
  | none =>
    cases hstore : store ("secret/ansible/" ++ (folder ++ "/" ++ entity_name)) with
    | some r =>
      simp only [_read_vault, hget, hstore]
      refine ⟨hs _ _ hstore, ?_⟩
      intro k rec hrec
      rcases getA_setA_elim _ _ _ _ _ hrec with h | h
      · rw [h]
        exact hs _ _ hstore
      · exact hc _ _ h
    | none =>
      simp only [_read_vault, hget, hstore]
      refine ⟨rfl, ?_⟩
      intro k rec hrec
      rcases getA_setA_elim _ _ _ _ _ hrec with h | h
      · rw [h]
        rfl
      · exact hc _ _ h

/-- The trace of `_read_vault` calls made by the domain loop: the folder
stays as given for every accumulated suffix different from the full host
name; at the suffix equal to the full name (by the hypotheses, only the
last one) the folder is recomputed from the accumulator's current
`ansible_connection`, which — when no consulted record overrides the
key — is still the loop-entry value. -/
theorem domainLoop_trace (store : String → Option Vars) (name : String) :
    ∀ (l : List String) (prev folder : String) (data : Vars) (st : St),
    storeNoConnOverride store →
    cacheNoConnOverride st.cache →
    (accGo l prev).getLast? = some name →
    (∀ x ∈ (accGo l prev).dropLast, x ≠ name) →
    (domainLoop store name l folder prev data st).2.reads =
      st.reads ++ ((accGo l prev).dropLast.map (fun s => (folder, s)) ++
        [(pyStrOpt (getA data "ansible_connection") ++ "/hosts", name)]) := by
  intro l
  induction l with
  | nil => intro prev folder data st _ _ hlast _; simp [accGo] at hlast
  | cons p rest ih =>
    intro prev folder data st hs hc hlast hdrop
    cases rest with
    | nil =>
      have hname : p ++ prev = name := by
        simpa [accGo] using hlast
      rw [domainLoop_cons, if_pos hname]
      show (readVaultSt store st
        (pyStrOpt (getA data "ansible_connection") ++ "/hosts") (p ++ prev)).2.reads = _
      rw [readVaultSt_reads, hname]
      simp [accGo]
    | cons q qs =>
      simp only [accGo] at hlast hdrop
      rw [List.getLast?_cons_cons] at hlast
      rw [List.dropLast_cons₂] at hdrop
      have hne : p ++ prev ≠ name := hdrop _ (List.mem_cons_self _ _)
      rw [domainLoop_cons, if_neg hne]
      have hclean := _read_vault_no_override store st.cache folder (p ++ prev) hs hc
      have hclean1 : getA (readVaultSt store st folder (p ++ prev)).1
          "ansible_connection" = none := hclean.1
      rw [ih ("." ++ p ++ prev) folder _ _ hs hclean.2 hlast
        (fun x hx => hdrop x (List.mem_cons_of_mem _ hx))]
      rw [readVaultSt_reads]
      rw [getA_combine_of_none data _ "ansible_connection" hclean1]
      simp only [accGo, List.dropLast_cons₂, List.map_cons, List.cons_append,
        List.append_assoc]
      simp

theorem splitDotCL_length (cs : List Char) :
    (splitDotCL cs).length = cs.count '.' + 1 := by
  induction cs with
  | nil => simp [splitDotCL]
  | cons c rest ih =>
    simp only [splitDotCL]
    split
    · rename_i h
      subst h
      simp [List.count_cons_self, ih]
    · rename_i hne
      cases hsr : splitDotCL rest with
      | nil => exact absurd hsr (splitDotCL_ne_nil rest)
      | cons p ps =>
        rw [hsr] at ih
        simp only [List.length_cons] at ih ⊢
        rw [List.count_cons]
        simp [hne]
        omega

theorem pySplitDot_length (s : String) :
    (pySplitDot s).length = s.data.count '.' + 1 := by
  rw [pySplitDot, List.length_map, splitDotCL_length]

theorem pySplitDot_length_one_iff (s : String) :
    (pySplitDot s).length = 1 ↔ '.' ∉ s.data := by
  rw [pySplitDot_length]
  constructor
  · intro h
    have hc : s.data.count '.' = 0 := by omega
    exact List.count_eq_zero.mp hc
  · intro h
    rw [List.count_eq_zero.mpr h]

theorem pySplitDot_length_gt_one (s : String) (h : '.' ∈ s.data) :
    1 < (pySplitDot s).length := by
  rw [pySplitDot_length]
  have := List.count_pos_iff.mpr h
  omega

/-- `_get_vars` on a `Group` entity: a single `groups` folder lookup. -/
theorem _get_vars_group (ipv6 : String → Bool) (store : String → Option Vars)
    (st : St) (data : Vars) (name : String) :
    _get_vars ipv6 store st data (.group name) =
      .ok (combine_vars data (readVaultSt store st "groups" name).1,
           .group name, (readVaultSt store st "groups" name).2) := rfl

/-- `_get_vars` on a `Host` entity never raises: `str.split('.')` always
produces at least one part, so the `len(parts) == 0` branch is
unreachable. -/
theorem _get_vars_host_ok (ipv6 : String → Bool) (store : String → Option Vars)
    (st : St) (data : Vars) (name : String) (hvars : Vars) :
    ∃ out, _get_vars ipv6 store st data (.host name hvars) = .ok out := by
  simp only [_get_vars]
  split
  · exact ⟨_, rfl⟩
  · split
    · exact ⟨_, rfl⟩
    · split
      · exact ⟨_, rfl⟩
      · rename_i h1 h2
        exfalso
        have hpos : 0 < (pySplitDot name).length :=
          List.length_pos.mpr (pySplitDot_ne_nil name)
        omega

/-! ## Claims -/

/-- Claim C3: overlay merge law. For every accumulator `a` (earlier
layer) and secret record `b` (later layer, a dict, so its keys are
unique), the merged mapping takes `b`'s value on every key present in
`b` regardless of `a`, and keeps `a`'s value on every key absent from
`b`. -/
theorem c3_overlay_merge_law (a b : Vars) (k : String)
    (hb : (b.map Prod.fst).Nodup) :
    (∀ v, getA b k = some v → getA (combine_vars a b) k = some v) ∧
    (getA b k = none → getA (combine_vars a b) k = getA a k) := by
  induction b generalizing a with
  | nil =>
    refine ⟨fun v hv => ?_, fun _ => rfl⟩
    simp [getA] at hv
  | cons kv rest ih =>
    obtain ⟨k', v'⟩ := kv
    rw [List.map_cons, List.nodup_cons] at hb
    obtain ⟨hk', hrest⟩ := hb
    constructor
    · intro v hv
      rw [combine_vars_cons]
      simp only [getA] at hv
      by_cases hkk : k' = k
      · subst hkk
        rw [if_pos rfl] at hv
        obtain rfl := Option.some.inj hv
        rw [getA_combine_of_not_mem _ _ _ hk']
        exact getA_setA_self a k' v'
      · rw [if_neg hkk] at hv
        exact (ih (setA a k' v') hrest).1 v hv
    · intro hnone
      simp only [getA] at hnone
      by_cases hkk : k' = k
      · rw [if_pos hkk] at hnone
        cases hnone
      · rw [if_neg hkk] at hnone
        rw [combine_vars_cons, (ih (setA a k' v') hrest).2 hnone,
          getA_setA_ne _ _ _ _ (Ne.symm hkk)]

/-- Witness for C3 at a concrete overlap: `{x:1, y:1}` overlaid with
`{x:2}` yields `x = 2` and keeps `y = 1`. -/
theorem c3_overlay_merge_law_witness :
    getA (combine_vars [("x", Value.int 1), ("y", Value.int 1)] [("x", Value.int 2)]) "x"
      = some (Value.int 2) ∧
    getA (combine_vars [("x", Value.int 1), ("y", Value.int 1)] [("x", Value.int 2)]) "y"
      = some (Value.int 1) :=
  ⟨(c3_overlay_merge_law [("x", Value.int 1), ("y", Value.int 1)] [("x", Value.int 2)] "x"
      (by decide)).1 (Value.int 2) rfl,
   (c3_overlay_merge_law [("x", Value.int 1), ("y", Value.int 1)] [("x", Value.int 2)] "y"
      (by decide)).2 rfl⟩

/-- Claim C4: cache idempotence. On a key not yet cached, `_read_vault`
performs exactly one underlying store read and caches the result under
`folder + "/" + name`; a second invocation with the same arguments
returns the cached value with zero store reads (and leaves the cache
unchanged). -/
theorem c4_cache_idempotence (store : String → Option Vars) (cache : Cache)
    (folder name : String)
    (h : getA cache (folder ++ "/" ++ name) = none) :
    ∃ v c1, _read_vault store cache folder name = (v, c1, 1) ∧
      getA c1 (folder ++ "/" ++ name) = some v ∧
      _read_vault store c1 folder name = (v, c1, 0) := by
  have hread : _read_vault store cache folder name =
      ((match store ("secret/ansible/" ++ (folder ++ "/" ++ name)) with
        | some result => result
        | none => ([] : Vars)),
       setA cache (folder ++ "/" ++ name)
         (match store ("secret/ansible/" ++ (folder ++ "/" ++ name)) with
          | some result => result
          | none => ([] : Vars)), 1) := by
    simp only [_read_vault, h]
  exact ⟨_, _, hread, getA_setA_self _ _ _, by simp only [_read_vault, getA_setA_self]⟩

/-- Witness for C4: a fresh cache, a store holding `{u:7}` at
`secret/ansible/groups/all`. -/
theorem c4_cache_idempotence_witness :
    ∃ v c1, _read_vault
        (fun p => if p = "secret/ansible/groups/all" then some [("u", Value.int 7)] else none)
        [] "groups" "all" = (v, c1, 1) ∧
      getA c1 ("groups" ++ "/" ++ "all") = some v ∧
      _read_vault
        (fun p => if p = "secret/ansible/groups/all" then some [("u", Value.int 7)] else none)
        c1 "groups" "all" = (v, c1, 0) :=
  c4_cache_idempotence
    (fun p => if p = "secret/ansible/groups/all" then some [("u", Value.int 7)] else none)
    [] "groups" "all" rfl

/-- Claim C5: a store miss is not an error. If the path
`"secret/ansible/" + folder + "/" + name` has no data and the key is not
yet cached, `_read_vault` returns (not raises) the empty mapping, caches
it under the key, and overlaying it leaves any accumulator unchanged. -/
theorem c5_store_miss_empty (store : String → Option Vars) (cache : Cache)
    (folder name : String) (acc : Vars)
    (hmiss : getA cache (folder ++ "/" ++ name) = none)
    (hstore : store ("secret/ansible/" ++ (folder ++ "/" ++ name)) = none) :
    ∃ c1, _read_vault store cache folder name = ([], c1, 1) ∧
      getA c1 (folder ++ "/" ++ name) = some [] ∧
      combine_vars acc [] = acc := by
  refine ⟨setA cache (folder ++ "/" ++ name) [], ?_, getA_setA_self _ _ _, rfl⟩
  simp only [_read_vault, hmiss, hstore]

/-- Witness for C5: empty store, empty cache, a 1-entry accumulator. -/
theorem c5_store_miss_empty_witness :
    ∃ c1, _read_vault (fun _ => none) [] "ssh/hosts" "hosta" = ([], c1, 1) ∧
      getA c1 ("ssh/hosts" ++ "/" ++ "hosta") = some [] ∧
      combine_vars [("x", Value.int 1)] [] = [("x", Value.int 1)] :=
  c5_store_miss_empty (fun _ => none) [] "ssh/hosts" "hosta" [("x", Value.int 1)] rfl rfl

/-- Claim C2: connection defaults. A pre-existing `ansible_port` is used
unchanged; with neither `ansible_port` nor `ansible_connection` given,
the port defaults to 22; a pre-existing `ansible_connection` is used
unchanged; otherwise the connection is `"winrm"` exactly when the
resolved port is 5985 or 5986 and `"ssh"` otherwise — in particular a
host providing neither gets port 22 and connection `"ssh"`. -/
theorem c2_connection_defaults (hvars data : Vars) :
    (∀ p, getA hvars "ansible_port" = some p →
      getA (resolveDefaults hvars data) "ansible_port" = some p) ∧
    (getA hvars "ansible_port" = none → getA hvars "ansible_connection" = none →
      getA (resolveDefaults hvars data) "ansible_port" = some (Value.int 22)) ∧
    (∀ c, getA hvars "ansible_connection" = some c →
      getA (resolveDefaults hvars data) "ansible_connection" = some c) ∧
    (getA hvars "ansible_connection" = none →
      getA (resolveDefaults hvars data) "ansible_connection" =
        some (if getA (resolveDefaults hvars data) "ansible_port" = some (Value.int 5985) ∨
                  getA (resolveDefaults hvars data) "ansible_port" = some (Value.int 5986)
              then Value.str "winrm" else Value.str "ssh")) ∧
    (getA hvars "ansible_port" = none → getA hvars "ansible_connection" = none →
      getA (resolveDefaults hvars data) "ansible_connection" = some (Value.str "ssh")) := by
  have hne : ("ansible_port" : String) ≠ "ansible_connection" := by decide
  refine ⟨?_, ?_, ?_, ?_, ?_⟩
  · intro p hp
    cases hc : getA hvars "ansible_connection" with
    | none =>
      simp only [resolveDefaults, hp, hc]
      split
      · rw [getA_setA_ne _ _ _ _ hne, getA_setA_self]
      · rw [getA_setA_ne _ _ _ _ hne, getA_setA_self]
    | some c =>
      simp only [resolveDefaults, hp, hc]
      rw [getA_setA_ne _ _ _ _ hne, getA_setA_self]
  · intro hp hc
    simp only [resolveDefaults, hp, hc]
    split
    · rw [getA_setA_ne _ _ _ _ hne, getA_setA_self]
    · rw [getA_setA_ne _ _ _ _ hne, getA_setA_self]
  · intro c hc
    simp only [resolveDefaults, hc]
    exact getA_setA_self _ _ _
  · intro hc
    cases hp : getA hvars "ansible_port" with
    | none =>
      simp only [resolveDefaults, hp, hc]
      by_cases hcond :
          getA (setA data "ansible_port" (Value.int 22)) "ansible_port" = some (Value.int 5985) ∨
          getA (setA data "ansible_port" (Value.int 22)) "ansible_port" = some (Value.int 5986)
      · rw [if_pos hcond, getA_setA_self, getA_setA_ne _ _ _ _ hne, if_pos hcond]
      · rw [if_neg hcond, getA_setA_self, getA_setA_ne _ _ _ _ hne, if_neg hcond]
    | some p =>
      simp only [resolveDefaults, hp, hc]
      by_cases hcond :
          getA (setA data "ansible_port" p) "ansible_port" = some (Value.int 5985) ∨
          getA (setA data "ansible_port" p) "ansible_port" = some (Value.int 5986)
      · rw [if_pos hcond, getA_setA_self, getA_setA_ne _ _ _ _ hne, if_pos hcond]
      · rw [if_neg hcond, getA_setA_self, getA_setA_ne _ _ _ _ hne, if_neg hcond]
  · intro hp hc
    simp only [resolveDefaults, hp, hc]
    rw [if_neg (by rw [getA_setA_self]; decide), getA_setA_self]

/-- Witness for C2: the empty-vars host resolves to port 22 and
connection `"ssh"`; a host with pre-set port 5985 and no connection
resolves to connection `"winrm"`. -/
theorem c2_connection_defaults_witness :
    getA (resolveDefaults [] []) "ansible_port" = some (Value.int 22) ∧
    getA (resolveDefaults [] []) "ansible_connection" = some (Value.str "ssh") ∧
    getA (resolveDefaults [("ansible_port", Value.int 5985)] []) "ansible_connection" =
      some (if getA (resolveDefaults [("ansible_port", Value.int 5985)] [])
                  "ansible_port" = some (Value.int 5985) ∨
                getA (resolveDefaults [("ansible_port", Value.int 5985)] [])
                  "ansible_port" = some (Value.int 5986)
            then Value.str "winrm" else Value.str "ssh") :=
  ⟨(c2_connection_defaults [] []).2.1 rfl rfl,
   (c2_connection_defaults [] []).2.2.2.2 rfl rfl,
   (c2_connection_defaults [("ansible_port", Value.int 5985)] []).2.2.2.1 rfl⟩

theorem runEntities_error_of_other (ipv6 : String → Bool)
    (store : String → Option Vars) (post : List Entity) (tyName : String) :
    ∀ (pre : List Entity), (∀ e ∈ pre, ∀ t, e ≠ Entity.other t) →
    ∀ (data : Vars) (st : St),
    runEntities ipv6 store (pre ++ Entity.other tyName :: post) data st =
      .error (.unrecognisedEntity tyName) := by
  intro pre
  induction pre with
  | nil =>
    intro _ data st
    simp only [List.nil_append, runEntities, _get_vars]
  | cons e rest ih =>
    intro hpre data st
    have hrec := fun x hx => hpre x (List.mem_cons_of_mem _ hx)
    cases e with
    | group n =>
      rw [List.cons_append]
      simp only [runEntities, _get_vars_group]
      exact ih hrec _ _
    | host n hv =>
      rw [List.cons_append]
      obtain ⟨out, hout⟩ := _get_vars_host_ok ipv6 store st data n hv
      simp only [runEntities, hout]
      exact ih hrec _ _
    | other t => exact absurd rfl (hpre _ (List.mem_cons_self _ _) t)

/-- Claim C6: an entity that is neither a `Group` nor a `Host` raises a
fatal `AnsibleInternalError` carrying the offending type, and the whole
batch resolution aborts with that error — no partial merged mapping is
returned. -/
theorem c6_unrecognised_entity_aborts (ipv6 : String → Bool)
    (store : String → Option Vars) (st : St) (pre post : List Entity)
    (tyName : String) (hpre : ∀ e ∈ pre, ∀ t, e ≠ Entity.other t) :
    get_vars ipv6 store st (.list (pre ++ Entity.other tyName :: post)) =
      .error (.unrecognisedEntity tyName) := by
  simp only [get_vars]
  exact runEntities_error_of_other ipv6 store post tyName pre hpre [] st

/-- Witness for C6: a batch `[Group "all", <other "dict">, Group "web"]`
aborts with the classification error for `"dict"`. -/
theorem c6_unrecognised_entity_aborts_witness :
    get_vars (fun _ => false) (fun _ => none) ⟨[], [], 0⟩
        (.list ([Entity.group "all"] ++ Entity.other "dict" :: [Entity.group "web"])) =
      .error (.unrecognisedEntity "dict") :=
  c6_unrecognised_entity_aborts (fun _ => false) (fun _ => none) ⟨[], [], 0⟩
    [Entity.group "all"] [Entity.group "web"] "dict" (by simp)

/-- Claim C7 (amended): Python `str.split('.')` never yields zero parts
— even the empty host name yields one (empty) part — so the
`len(parts) == 0` error branch is unreachable and `_get_vars` on a
`Host` always succeeds. -/
theorem c7_split_never_empty (name : String) (ipv6 : String → Bool)
    (store : String → Option Vars) (st : St) (data hvars : Vars) :
    1 ≤ (pySplitDot name).length ∧
    ∃ out, _get_vars ipv6 store st data (.host name hvars) = .ok out :=
  ⟨List.length_pos.mpr (pySplitDot_ne_nil name),
   _get_vars_host_ok ipv6 store st data name hvars⟩

/-- Counterexample for C7 as stated: splitting the empty host name
yields one part, not zero, and resolution of `Host ""` returns a result
instead of raising a structural error. -/
theorem c7_counterexample_empty_name :
    (pySplitDot "").length = 1 ∧
    _get_vars (fun _ => false) (fun _ => none) ⟨[], [], 0⟩ [] (.host "" []) =
      .ok ([("ansible_port", Value.int 22), ("ansible_connection", Value.str "ssh")],
           .host "" [], ⟨[("ssh/hosts/", [])], [("ssh/hosts", "")], 1⟩) :=
  ⟨rfl, rfl⟩

/-- Claim C8: frame property. `_get_vars` never mutates the entity it is
given (Python passes the entity by reference; the embedding returns the
entity object as it stands after the call): whatever the run returns,
the entity component is the input entity, so `entity.vars` is only ever
read. -/
theorem c8_entity_not_mutated (ipv6 : String → Bool) (store : String → Option Vars)
    (st : St) (data : Vars) (entity : Entity) (d : Vars) (e : Entity) (st' : St)
    (h : _get_vars ipv6 store st data entity = .ok (d, e, st')) : e = entity := by
  cases entity with
  | group name =>
    simp only [_get_vars, Except.ok.injEq, Prod.mk.injEq] at h
    exact h.2.1.symm
  | host name hvars =>
    simp only [_get_vars] at h
    split at h
    · simp only [Except.ok.injEq, Prod.mk.injEq] at h
      exact h.2.1.symm
    · split at h
      · simp only [Except.ok.injEq, Prod.mk.injEq] at h
        exact h.2.1.symm
      · split at h
        · simp only [Except.ok.injEq, Prod.mk.injEq] at h
          exact h.2.1.symm
        · exact Except.noConfusion h
  | other t => exact Except.noConfusion h

/-- Witness for C8 at the concrete run of `Group "all"` on an empty
store. -/
theorem c8_entity_not_mutated_witness : Entity.group "all" = Entity.group "all" :=
  c8_entity_not_mutated (fun _ => false) (fun _ => none) ⟨[], [], 0⟩ []
    (Entity.group "all") [] (Entity.group "all")
    ⟨[("groups/all", [])], [("groups", "all")], 1⟩ rfl

/-- Claim C9: a host whose name passes the IP-address test (IPv4 per the
dotted-quad model, or IPv6 per the external test) skips domain
decomposition entirely: exactly one lookup,
`({connection}/hosts, name)`, even though the name may contain dots. -/
theorem c9_ip_single_lookup (ipv6 : String → Bool) (store : String → Option Vars)
    (st : St) (data : Vars) (name : String) (hvars : Vars)
    (hip : _is_valid_ip_address ipv6 name = true) :
    ∃ d e st', _get_vars ipv6 store st data (.host name hvars) = .ok (d, e, st') ∧
      st'.reads = st.reads ++
        [(pyStrOpt (getA (resolveDefaults hvars data) "ansible_connection") ++ "/hosts",
          name)] := by
  have hrun : _get_vars ipv6 store st data (.host name hvars) =
      .ok (combine_vars (resolveDefaults hvars data)
             (readVaultSt store st
               (pyStrOpt (getA (resolveDefaults hvars data) "ansible_connection") ++ "/hosts")
               name).1,
           .host name hvars,
           (readVaultSt store st
             (pyStrOpt (getA (resolveDefaults hvars data) "ansible_connection") ++ "/hosts")
             name).2) := by
    simp only [_get_vars]
    rw [if_pos hip]
  exact ⟨_, _, _, hrun, readVaultSt_reads _ _ _ _⟩

/-- Witness for C9 at the dotted IPv4 name `1.2.3.4`. -/
theorem c9_ip_single_lookup_witness :
    ∃ d e st',
      _get_vars (fun _ => false) (fun _ => none) ⟨[], [], 0⟩ [] (.host "1.2.3.4" []) =
        .ok (d, e, st') ∧
      st'.reads = (⟨[], [], 0⟩ : St).reads ++
        [(pyStrOpt (getA (resolveDefaults [] []) "ansible_connection") ++ "/hosts",
          "1.2.3.4")] :=
  c9_ip_single_lookup (fun _ => false) (fun _ => none) ⟨[], [], 0⟩ [] "1.2.3.4" []
    (by decide)

/-- Claim C10: a non-list `entities` argument is wrapped into a
one-element list; `get_vars` on the single entity equals `get_vars` on
the singleton list. -/
theorem c10_single_entity_wrapped (ipv6 : String → Bool)
    (store : String → Option Vars) (st : St) (e : Entity) :
    get_vars ipv6 store st (.single e) = get_vars ipv6 store st (.list [e]) := rfl

/-- Claim C1 (amended: restricted to host names that do not pass the IP
test, and to runs in which no consulted vault record overrides
`ansible_connection` — neither a cached record nor one the store can
return carries that key). Under those conditions the lookup-key sequence
of a host is deterministic and equals: with no `'.'` in the name, the
single key `({conn}/hosts, name)`; otherwise one key per accumulated
domain suffix (widest to narrowest, the full name excluded) under
`{conn}/domains`, followed by exactly one key `({conn}/hosts, name)`
for the full host name, where `{conn}` is the connection type resolved
from the entity's own vars. -/
theorem c1_domain_lookup_sequence (ipv6 : String → Bool)
    (store : String → Option Vars) (st : St) (data : Vars) (name : String)
    (hvars : Vars) (hip : _is_valid_ip_address ipv6 name = false)
    (hs : storeNoConnOverride store) (hc : cacheNoConnOverride st.cache) :
    ∃ d e st', _get_vars ipv6 store st data (.host name hvars) = .ok (d, e, st') ∧
      st'.reads = st.reads ++
        (if '.' ∈ name.data then
          (accGo (pySplitDot name).reverse "").dropLast.map
            (fun s => (pyStrOpt (getA (resolveDefaults hvars data) "ansible_connection")
              ++ "/domains", s)) ++
          [(pyStrOpt (getA (resolveDefaults hvars data) "ansible_connection")
              ++ "/hosts", name)]
        else
          [(pyStrOpt (getA (resolveDefaults hvars data) "ansible_connection")
              ++ "/hosts", name)]) := by
  have h1 : _is_valid_ip_address ipv6 name ≠ true := by
    rw [hip]
    exact Bool.false_ne_true
  by_cases hdot : '.' ∈ name.data
  · rw [if_pos hdot]
    have hlen : 1 < (pySplitDot name).length := pySplitDot_length_gt_one name hdot
    have hlen1 : (pySplitDot name).length ≠ 1 := by omega
    have hrev_ne : (pySplitDot name).reverse ≠ [] := by
      simp [pySplitDot_ne_nil name]
    have hlast : (accGo (pySplitDot name).reverse "").getLast? = some name := by
      rw [accGo_getLast _ _ hrev_ne, List.reverse_reverse, str_append_empty,
        dotJoin_pySplitDot]
    have hdrop : ∀ x ∈ (accGo (pySplitDot name).reverse "").dropLast, x ≠ name := by
      intro x hx heq
      have hlt := length_lt_of_mem_dropLast_accGo _ _ x name hx hlast
      rw [heq] at hlt
      omega
    have hrun : _get_vars ipv6 store st data (.host name hvars) =
        .ok ((domainLoop store name (pySplitDot name).reverse
                (pyStrOpt (getA (resolveDefaults hvars data) "ansible_connection")
                  ++ "/domains")
                "" (resolveDefaults hvars data) st).1,
             .host name hvars,
             (domainLoop store name (pySplitDot name).reverse
                (pyStrOpt (getA (resolveDefaults hvars data) "ansible_connection")
                  ++ "/domains")
                "" (resolveDefaults hvars data) st).2) := by
      simp only [_get_vars]
      rw [if_neg h1, if_neg hlen1, if_pos hlen]
    exact ⟨_, _, _, hrun,
      domainLoop_trace store name (pySplitDot name).reverse ""
        (pyStrOpt (getA (resolveDefaults hvars data) "ansible_connection") ++ "/domains")
        (resolveDefaults hvars data) st hs hc hlast hdrop⟩
  · rw [if_neg hdot]
    have hlen1 : (pySplitDot name).length = 1 := (pySplitDot_length_one_iff name).mpr hdot
    have hrun : _get_vars ipv6 store st data (.host name hvars) =
        .ok (combine_vars (resolveDefaults hvars data)
               (readVaultSt store st
                 (pyStrOpt (getA (resolveDefaults hvars data) "ansible_connection")
                   ++ "/hosts") name).1,
             .host name hvars,
             (readVaultSt store st
               (pyStrOpt (getA (resolveDefaults hvars data) "ansible_connection")
                 ++ "/hosts") name).2) := by
      simp only [_get_vars]
      rw [if_neg h1, if_pos hlen1]
    exact ⟨_, _, _, hrun, readVaultSt_reads _ _ _ _⟩

/-- Witness for C1 (amended) at `hosta.example.com` with empty host
vars, an empty cache and a store that returns no data (so no record can
override the connection): the connection resolves to `ssh` and the trace
is exactly `(ssh/domains, com)`, `(ssh/domains, example.com)`,
`(ssh/hosts, hosta.example.com)`. -/
theorem c1_domain_lookup_sequence_witness :
    (∃ d e st',
      _get_vars (fun _ => false) (fun _ => none) ⟨[], [], 0⟩ []
          (.host "hosta.example.com" []) = .ok (d, e, st') ∧
      st'.reads = (⟨[], [], 0⟩ : St).reads ++
        (if '.' ∈ ("hosta.example.com" : String).data then
          (accGo (pySplitDot "hosta.example.com").reverse "").dropLast.map
            (fun s => (pyStrOpt (getA (resolveDefaults [] []) "ansible_connection")
              ++ "/domains", s)) ++
          [(pyStrOpt (getA (resolveDefaults [] []) "ansible_connection")
              ++ "/hosts", "hosta.example.com")]
        else
          [(pyStrOpt (getA (resolveDefaults [] []) "ansible_connection")
              ++ "/hosts", "hosta.example.com")])) ∧
    ((⟨[], [], 0⟩ : St).reads ++
        (if '.' ∈ ("hosta.example.com" : String).data then
          (accGo (pySplitDot "hosta.example.com").reverse "").dropLast.map
            (fun s => (pyStrOpt (getA (resolveDefaults [] []) "ansible_connection")
              ++ "/domains", s)) ++
          [(pyStrOpt (getA (resolveDefaults [] []) "ansible_connection")
              ++ "/hosts", "hosta.example.com")]
        else
          [(pyStrOpt (getA (resolveDefaults [] []) "ansible_connection")
              ++ "/hosts", "hosta.example.com")])) =
      [("ssh/domains", "com"), ("ssh/domains", "example.com"),
       ("ssh/hosts", "hosta.example.com")] :=
  ⟨c1_domain_lookup_sequence (fun _ => false) (fun _ => none) ⟨[], [], 0⟩ []
      "hosta.example.com" [] (by decide)
      (fun p r h => Option.noConfusion h)
      (fun k r h => Option.noConfusion h),
   by decide⟩

/-- Counterexample for C1 as stated, in both ways the universal claim
fails on the code. First, the host name `1.2.3.4` contains dots, yet the
plugin performs a single `(ssh/hosts, 1.2.3.4)` lookup — not the
domain-suffix decomposition the claim prescribes for every dotted name —
because the name is a valid IPv4 address. Second, even for a non-IP
dotted name the final lookup folder is not fixed by the entity's
resolved connection type: with a store whose record at
`secret/ansible/ssh/domains/com` sets `ansible_connection = "winrm"`,
host `hosta.example.com` ends with `(winrm/hosts, hosta.example.com)`,
not `(ssh/hosts, hosta.example.com)`. -/
theorem c1_counterexample_ip_named_host :
    (('.' ∈ ("1.2.3.4" : String).data) ∧
     _get_vars (fun _ => false) (fun _ => none) ⟨[], [], 0⟩ [] (.host "1.2.3.4" []) =
       .ok ([("ansible_port", Value.int 22), ("ansible_connection", Value.str "ssh")],
            .host "1.2.3.4" [],
            ⟨[("ssh/hosts/1.2.3.4", [])], [("ssh/hosts", "1.2.3.4")], 1⟩) ∧
     ([("ssh/hosts", "1.2.3.4")] : List (String × String)) ≠
       [("ssh/domains", "4"), ("ssh/domains", "3.4"), ("ssh/domains", "2.3.4"),
        ("ssh/hosts", "1.2.3.4")]) ∧
    (_get_vars (fun _ => false)
        (fun p => if p = "secret/ansible/ssh/domains/com"
                  then some [("ansible_connection", Value.str "winrm")] else none)
        ⟨[], [], 0⟩ [] (.host "hosta.example.com" []) =
       .ok ([("ansible_port", Value.int 22), ("ansible_connection", Value.str "winrm")],
            .host "hosta.example.com" [],
            ⟨[("ssh/domains/com", [("ansible_connection", Value.str "winrm")]),
              ("ssh/domains/example.com", []), ("winrm/hosts/hosta.example.com", [])],
             [("ssh/domains", "com"), ("ssh/domains", "example.com"),
              ("winrm/hosts", "hosta.example.com")], 3⟩) ∧
     ([("ssh/domains", "com"), ("ssh/domains", "example.com"),
       ("winrm/hosts", "hosta.example.com")] : List (String × String)) ≠
       [("ssh/domains", "com"), ("ssh/domains", "example.com"),
        ("ssh/hosts", "hosta.example.com")]) :=
  ⟨⟨by decide, rfl, by decide⟩, rfl, by decide⟩

end HashivaultVars
